import Mathlib

/-!
Shallow embedding of `main.ts` of `potato4d/own-discord-exporter`
(the variant using `localDate`, `sanitizeChannelName` and JSON-array
partition files, i.e. the code the specification was written from).

Machine conventions:
* JS `number` timestamps (epoch milliseconds) are `Int`.
* JS `null`/`undefined`-able values are `Option`.
* The filesystem is an association list from paths to file data; a file
  either holds text that parses as JSON (stored as the parsed value) or
  text that `JSON.parse` rejects (`corrupt`).
* Fallible async functions return `Except Unit`.
* The host timezone used by JS `Date` local accessors (`getFullYear`,
  `getMonth`, `getDate`) is passed explicitly as a UTC offset in
  milliseconds (`tz`).
-/

/-- Parsed JSON values, as produced by `JSON.parse` / consumed by
`JSON.stringify`. -/
inductive Json : Type where
  | null : Json
  | bool (b : Bool) : Json
  | num (n : Int) : Json
  | str (s : String) : Json
  | arr (elems : List Json) : Json
  | obj (fields : List (String × Json)) : Json

/-- Contents of a file on disk, as seen through `JSON.parse`: either text
that parses to a JSON value, or text that fails to parse. -/
inductive FileData : Type where
  | jsonData (v : Json) : FileData
  | corrupt : FileData

/-- The filesystem: an association list from paths to file contents.
Paths are unique keys (`fsWrite` replaces in place). -/
def FS : Type := List (String × FileData)

/-- Read a file (`Bun.file(path).text()` + presence check). -/
def fsRead : FS → String → Option FileData
  | [], _ => none
  | (q, e) :: rest, p => if q = p then some e else fsRead rest p

/-- Overwrite or create a file (`Bun.write(path, ...)`). -/
def fsWrite : FS → String → FileData → FS
  | [], p, d => [(p, d)]
  | (q, e) :: rest, p, d => if q = p then (q, d) :: rest else (q, e) :: fsWrite rest p d

/-- JS array-spread `[...v]` applied to a parsed JSON value: arrays spread
to their elements, strings spread to their characters, every other JSON
value is not iterable and makes the spread throw a `TypeError`. -/
def spreadJson : Json → Option (List Json)
  | .arr xs => some xs
  | .str s => some (s.data.map (fun c => Json.str (String.singleton c)))
  | _ => none

/-- `writeJson(path, records)` from `main.ts`:

```ts
async function writeJson(path: string, records: unknown[]) {
  if (!records.length) return;
  await mkdir(dirname(path), { recursive: true });
  let existing: unknown[] = [];
  try {
    existing = JSON.parse(await Bun.file(path).text());
  } catch {}
  await Bun.write(path, JSON.stringify([...existing, ...records], null, 2));
}
```

Only the read and the parse are inside the `try`; if the file's text
parses to a non-array JSON value the later spread `[...existing]` throws
outside the `try` (strings are iterable and spread to characters; all
other non-arrays throw), which rejects the returned promise. -/
def writeJson (fs : FS) (path : String) (records : List Json) : Except Unit FS :=
  if records.isEmpty then .ok fs
  else
    let existing : Json :=
      match fsRead fs path with
      | some (.jsonData v) => v
      | _ => Json.arr []
    match spreadJson existing with
    | some xs => .ok (fsWrite fs path (.jsonData (.arr (xs ++ records))))
    | none => .error ()

/-- The `Config` interface (the `Date` fields are modelled by their
`getTime()` epoch-millisecond values; `end` is a Lean keyword, so the
field is called `endTime`). -/
structure Config : Type where
  token : String
  channel : String
  outDir : String
  start : Int
  endTime : Int
  redactContent : Bool

/-- discord.js `ChannelType` (the constructors the code can meet). -/
inductive ChannelType : Type where
  | GuildText
  | DM
  | GuildVoice
  | GroupDM
  | GuildCategory
  | GuildAnnouncement
  | AnnouncementThread
  | PublicThread
  | PrivateThread
  | GuildStageVoice
  | GuildDirectory
  | GuildForum
  | GuildMedia
deriving DecidableEq

/-- `isThread` from `main.ts`: membership of the channel type in the
three thread variants. -/
def isThread (t : ChannelType) : Bool :=
  decide (t ∈ [ChannelType.PublicThread, ChannelType.PrivateThread,
               ChannelType.AnnouncementThread])

/-- The author fields the mapper reads from `msg.author` (and the shape
of the record's `author` sub-object, which copies them verbatim). -/
structure Author : Type where
  id : String
  username : String
  discriminator : String
  globalName : Option String
  bot : Bool
deriving DecidableEq

/-- The fields the mapper reads from `msg.reference` (and the shape of
the record's `reference` sub-object). -/
structure MessageRef : Type where
  messageId : Option String
  channelId : Option String
  guildId : Option String
deriving DecidableEq

/-- The fields the mapper reads from one mentioned user. -/
structure MentionUser : Type where
  id : String
  username : String
  globalName : Option String
  bot : Bool
deriving DecidableEq

/-- `msg.mentions`: mentioned users, role ids, channel ids, everyone
flag (only the read fields are modelled; role/channel mentions are read
only through their `id`). -/
structure Mentions : Type where
  users : List MentionUser
  roles : List String
  channels : List String
  everyone : Bool
deriving DecidableEq

/-- The fields the mapper reads from one attachment (`contentType`,
`height`, `width` can be nullish). -/
structure Attachment : Type where
  id : String
  url : String
  proxyURL : String
  name : String
  size : Int
  contentType : Option String
  height : Option Int
  width : Option Int
deriving DecidableEq

/-- The fields the mapper reads from one cached reaction
(`emoji` is read through `toString()`). -/
structure Reaction : Type where
  emoji : String
  count : Int
  me : Bool
deriving DecidableEq

/-- The discord.js `Message` surface the exporter reads. `id` is the
snowflake as a number (ids are monotonically assigned, and the paginator
compares them); `channelType` is `msg.channel.type`; `embeds` are kept in
their `toJSON()` serialized form, which is all the code reads of them. -/
structure Message : Type where
  id : Nat
  channelId : String
  guildId : Option String
  channelType : ChannelType
  createdTimestamp : Int
  editedTimestamp : Option Int
  author : Option Author
  content : String
  type : Nat
  tts : Bool
  pinned : Bool
  flags : Option Nat
  reference : Option MessageRef
  mentions : Mentions
  attachments : List Attachment
  embeds : List Json
  reactions : List Reaction

/-- Civil calendar date (year, month, day) from a count of days since
1970-01-01, by the standard era-based algorithm, floor division
throughout. -/
def civilFromDays (z0 : Int) : Int × Int × Int :=
  let z := z0 + 719468
  let era := Int.ediv z 146097
  let doe := Int.emod z 146097
  let yoe := Int.ediv (doe - Int.ediv doe 1460 + Int.ediv doe 36524 - Int.ediv doe 146096) 365
  let y := yoe + era * 400
  let doy := doe - (365 * yoe + Int.ediv yoe 4 - Int.ediv yoe 100)
  let mp := Int.ediv (5 * doy + 2) 153
  let d := doy - Int.ediv (153 * mp + 2) 5 + 1
  let m := if mp < 10 then mp + 3 else mp - 9
  (if m ≤ 2 then y + 1 else y, m, d)

/-- `String(n).padStart(2, "0")` for month/day/time components. -/
def pad2 (n : Int) : String :=
  if n < 10 then "0" ++ toString n else toString n

/-- Millisecond component padded to three digits. -/
def pad3 (n : Int) : String :=
  if n < 10 then "00" ++ toString n
  else if n < 100 then "0" ++ toString n
  else toString n

/-- Year component of `Date.prototype.toISOString`, padded to 4 digits. -/
def pad4 (n : Int) : String :=
  if n < 10 then "000" ++ toString n
  else if n < 100 then "00" ++ toString n
  else if n < 1000 then "0" ++ toString n
  else toString n

/-- `new Date(ts).toISOString()`: UTC calendar date and time with
millisecond precision. -/
def toISOString (ts : Int) : String :=
  let days := Int.ediv ts 86400000
  let msod := Int.emod ts 86400000
  let c := civilFromDays days
  pad4 c.1 ++ "-" ++ pad2 c.2.1 ++ "-" ++ pad2 c.2.2 ++ "T" ++
    pad2 (Int.ediv msod 3600000) ++ ":" ++
    pad2 (Int.emod (Int.ediv msod 60000) 60) ++ ":" ++
    pad2 (Int.emod (Int.ediv msod 1000) 60) ++ "." ++
    pad3 (Int.emod msod 1000) ++ "Z"

/-- `localDate` from `main.ts`: `y-MM-dd` of the creation instant in the
host's local timezone (`getFullYear`/`getMonth`/`getDate`), the host
timezone being modelled as the fixed UTC offset `tz` in milliseconds. -/
def localDate (tz : Int) (ts : Int) : String :=
  let c := civilFromDays (Int.ediv (ts + tz) 86400000)
  toString c.1 ++ "-" ++ pad2 c.2.1 ++ "-" ++ pad2 c.2.2

/-- `toRecord(msg, cfg)`'s output shape: the serializable export record.
Sub-objects that copy their source fields verbatim reuse the source
structures. -/
structure ExportRecord : Type where
  message_id : String
  channel_id : String
  guild_id : Option String
  thread_id : Option String
  created_at : String
  edited_at : Option String
  author : Option Author
  content : Option String
  type : Nat
  tts : Bool
  pinned : Bool
  flags : Option Nat
  reference : Option MessageRef
  mentions : Mentions
  attachments : List Attachment
  embeds : List Json
  reactions : List Reaction

/-- `toRecord(msg, cfg)` from `main.ts`. JS truthiness notes:
`msg.editedTimestamp ? ... : null` treats the timestamp `0` as falsy;
`author && {...}` and `msg.reference && {...}` map null to null. -/
def toRecord (cfg : Config) (msg : Message) : ExportRecord :=
  { message_id := toString msg.id
    channel_id := msg.channelId
    guild_id := msg.guildId
    thread_id := if isThread msg.channelType then some msg.channelId else none
    created_at := toISOString msg.createdTimestamp
    edited_at :=
      match msg.editedTimestamp with
      | some t => if t = 0 then none else some (toISOString t)
      | none => none
    author := msg.author.map (fun a =>
      { id := a.id, username := a.username, discriminator := a.discriminator,
        globalName := a.globalName, bot := a.bot })
    content := if cfg.redactContent then none else some msg.content
    type := msg.type
    tts := msg.tts
    pinned := msg.pinned
    flags := msg.flags
    reference := msg.reference.map (fun r =>
      { messageId := r.messageId, channelId := r.channelId, guildId := r.guildId })
    mentions :=
      { users := msg.mentions.users.map (fun u =>
          { id := u.id, username := u.username, globalName := u.globalName, bot := u.bot })
        roles := msg.mentions.roles
        channels := msg.mentions.channels
        everyone := msg.mentions.everyone }
    attachments := msg.attachments.map (fun a =>
      { id := a.id, url := a.url, proxyURL := a.proxyURL, name := a.name,
        size := a.size, contentType := a.contentType, height := a.height,
        width := a.width })
    embeds := msg.embeds
    reactions := msg.reactions.map (fun r =>
      { emoji := r.emoji, count := r.count, me := r.me }) }

/-- The characters the sanitizer's first regex `[<>:"/\\|?*]` replaces. -/
def forbiddenChars : List Char := ['<', '>', ':', '"', '/', '\\', '|', '?', '*']

/-- One character of the first `replace`: forbidden characters become a
dash, everything else is kept. -/
def sanitizeChar (c : Char) : Char :=
  if c ∈ forbiddenChars then '-' else c

/-- JS regex `\s` whitespace class (the whitespace code points of the
ECMAScript `WhiteSpace`/`LineTerminator` productions). -/
def isJsWs (c : Char) : Bool :=
  c ∈ [' ', '\t', '\n', '\r', '\x0b', '\x0c', '\u00A0', '\u1680',
       '\u2000', '\u2001', '\u2002', '\u2003', '\u2004', '\u2005',
       '\u2006', '\u2007', '\u2008', '\u2009', '\u200A', '\u2028',
       '\u2029', '\u202F', '\u205F', '\u3000', '\uFEFF']

/-- `.replace(/\s+/g, "-")`: every maximal run of whitespace becomes a
single dash. -/
def collapseWs : List Char → List Char
  | [] => []
  | [c] => if isJsWs c then ['-'] else [c]
  | c1 :: c2 :: rest =>
    if isJsWs c1 then
      if isJsWs c2 then collapseWs (c2 :: rest)
      else '-' :: collapseWs (c2 :: rest)
    else c1 :: collapseWs (c2 :: rest)

/-- `.toLowerCase()`, modelled on the ASCII range (JS lowercases the
full Unicode repertoire; only the ASCII letters matter here). -/
def lowerChar (c : Char) : Char :=
  match c with
  | 'A' => 'a' | 'B' => 'b' | 'C' => 'c' | 'D' => 'd' | 'E' => 'e'
  | 'F' => 'f' | 'G' => 'g' | 'H' => 'h' | 'I' => 'i' | 'J' => 'j'
  | 'K' => 'k' | 'L' => 'l' | 'M' => 'm' | 'N' => 'n' | 'O' => 'o'
  | 'P' => 'p' | 'Q' => 'q' | 'R' => 'r' | 'S' => 's' | 'T' => 't'
  | 'U' => 'u' | 'V' => 'v' | 'W' => 'w' | 'X' => 'x' | 'Y' => 'y'
  | 'Z' => 'z'
  | c => c

/-- `sanitizeChannelName` on the character list: replace forbidden
characters, collapse whitespace runs, strip leading dots
(`.replace(/^\.+/, "")`), lowercase. -/
def sanitizeChars (l : List Char) : List Char :=
  (((collapseWs (l.map sanitizeChar)).dropWhile (fun c => c = '.')).map lowerChar)

/-- `sanitizeChannelName(name)` from `main.ts`. -/
def sanitizeChannelName (s : String) : String :=
  String.mk (sanitizeChars s.data)

/-- `path.join(outDir, sanitizedName, dt, "messages.json")` (separator
normalization aside, which no claim depends on). -/
def partitionPath (outDir sanitizedName dt : String) : String :=
  outDir ++ "/" ++ sanitizedName ++ "/" ++ dt ++ "/messages.json"

/-- The comparator `(a, b) => a.createdTimestamp - b.createdTimestamp`. -/
def createdLe (a b : Message) : Prop :=
  a.createdTimestamp ≤ b.createdTimestamp

instance : DecidableRel createdLe := fun a b =>
  inferInstanceAs (Decidable (a.createdTimestamp ≤ b.createdTimestamp))

instance : IsTotal Message createdLe :=
  ⟨fun a b => Int.le_total a.createdTimestamp b.createdTimestamp⟩

instance : IsTrans Message createdLe :=
  ⟨fun _ _ _ h1 h2 => Int.le_trans h1 h2⟩

/-- `msgs.sort((a, b) => a.createdTimestamp - b.createdTimestamp)`:
`Array.prototype.sort` is a stable sort by the comparator, modelled by
stable insertion sort. -/
def sortMessages (msgs : List Message) : List Message :=
  List.insertionSort createdLe msgs

/-- First-occurrence deduplication (the key set of a JS `Map`, in
insertion order). -/
def dedupFirst : List String → List String
  | [] => []
  | k :: rest => k :: (dedupFirst rest).filter (fun x => decide (x ≠ k))

/-- `Map.groupBy(l, key)` as an association list: keys in first-occurrence
order, each key mapped to the elements with that key in encounter
order. -/
def groupByKey (key : Message → String) (l : List Message) : List (String × List Message) :=
  (dedupFirst (l.map key)).map (fun k => (k, l.filter (fun a => decide (key a = k))))

/-- The date-grouped batches `writeMessages` hands to `writeJson`:
`Map.groupBy(msgs.sort(...), m => localDate(new Date(m.createdTimestamp)))`. -/
def pageGroups (tz : Int) (msgs : List Message) : List (String × List Message) :=
  groupByKey (fun m => localDate tz m.createdTimestamp) (sortMessages msgs)

/-- Serialize an `Option String` field. -/
def optStrJson : Option String → Json
  | some s => .str s
  | none => .null

/-- Serialize an `Option Int` field. -/
def optNumJson : Option Int → Json
  | some n => .num n
  | none => .null

/-- Serialize the export record to the JSON value `JSON.stringify`
writes for it. -/
def recordToJson (r : ExportRecord) : Json :=
  .obj
    [("message_id", .str r.message_id),
     ("channel_id", .str r.channel_id),
     ("guild_id", optStrJson r.guild_id),
     ("thread_id", optStrJson r.thread_id),
     ("created_at", .str r.created_at),
     ("edited_at", optStrJson r.edited_at),
     ("author",
       match r.author with
       | some a => .obj
           [("id", .str a.id), ("username", .str a.username),
            ("discriminator", .str a.discriminator),
            ("globalName", optStrJson a.globalName), ("bot", .bool a.bot)]
       | none => .null),
     ("content", optStrJson r.content),
     ("type", .num (Int.ofNat r.type)),
     ("tts", .bool r.tts),
     ("pinned", .bool r.pinned),
     ("flags",
       match r.flags with
       | some n => .num (Int.ofNat n)
       | none => .null),
     ("reference",
       match r.reference with
       | some f => .obj
           [("message_id", optStrJson f.messageId),
            ("channel_id", optStrJson f.channelId),
            ("guild_id", optStrJson f.guildId)]
       | none => .null),
     ("mentions", .obj
       [("users", .arr (r.mentions.users.map (fun u => .obj
           [("id", .str u.id), ("username", .str u.username),
            ("globalName", optStrJson u.globalName), ("bot", .bool u.bot)]))),
        ("roles", .arr (r.mentions.roles.map Json.str)),
        ("channels", .arr (r.mentions.channels.map Json.str)),
        ("everyone", .bool r.mentions.everyone)]),
     ("attachments", .arr (r.attachments.map (fun a => .obj
       [("id", .str a.id), ("url", .str a.url), ("proxyURL", .str a.proxyURL),
        ("name", .str a.name), ("size", .num a.size),
        ("contentType", optStrJson a.contentType),
        ("height", optNumJson a.height), ("width", optNumJson a.width)]))),
     ("embeds", .arr r.embeds),
     ("reactions", .arr (r.reactions.map (fun c => .obj
       [("emoji", .str c.emoji), ("count", .num c.count), ("me", .bool c.me)])))]

/-- `writeMessages(cfg, msgs, channelName)` from `main.ts`: skip empty
pages, sort ascending by creation time, group by local calendar date,
and feed each group's records to `writeJson` at its partition path.
A failing `writeJson` rejects the whole call. -/
def writeMessages (cfg : Config) (tz : Int) (fs : FS) (msgs : List Message)
    (channelName : String) : Except Unit FS :=
  if msgs.isEmpty then .ok fs
  else
    let sanitizedName := sanitizeChannelName channelName
    (pageGroups tz msgs).foldlM
      (fun acc g =>
        if g.2.isEmpty then .ok acc
        else writeJson acc (partitionPath cfg.outDir sanitizedName g.1)
          (g.2.map (fun m => recordToJson (toRecord cfg m))))
      fs

/-- `ch.messages.fetch({ limit: 100, before })`: the 100 newest messages
of the channel older than the cursor (all the newest when the cursor is
unset). The channel history `hist` is the full finite message list,
newest first. -/
def fetchPage (hist : List Message) (before : Option Nat) : List Message :=
  (match before with
   | none => hist
   | some b => hist.filter (fun m => decide (m.id < b))).take 100

/-- `msgs.reduce((a, b) => a.createdTimestamp < b.createdTimestamp ? a : b)`:
the earliest message of a non-empty page (on a tie the later operand is
kept, as the conditional takes its else branch). -/
def oldestMsg (m0 : Message) (rest : List Message) : Message :=
  rest.foldl (fun a b => if a.createdTimestamp < b.createdTimestamp then a else b) m0

/-- Outcome of a backfill run: the final filesystem, the `total` counter
and the number of fetch calls made; `fail` when a partition write
rejects; `fuelOut` when the supplied fuel did not cover the loop. -/
inductive RunOutcome : Type where
  | ok (fs : FS) (total : Nat) (fetchCalls : Nat) : RunOutcome
  | fail : RunOutcome
  | fuelOut : RunOutcome

/-- The `while (true)` loop of `backfill(cfg, ch)`, embedded with
explicit fuel (each fuel step is one iteration, i.e. one fetch call):
fetch a page; stop on an empty page; filter to `[start, end)`; write the
in-range messages; stop if the page's oldest message precedes `start`;
otherwise move the cursor to the oldest message's id. -/
def backfillFuel (cfg : Config) (tz : Int) (hist : List Message)
    (channelName : String) :
    Nat → Option Nat → FS → Nat → Nat → RunOutcome
  | 0, _, _, _, _ => .fuelOut
  | fuel + 1, before, fs, total, calls =>
    match fetchPage hist before with
    | [] => .ok fs total (calls + 1)
    | m0 :: rest =>
      let msgs := m0 :: rest
      let total2 := total + msgs.length
      let inRange := msgs.filter (fun m =>
        decide (cfg.start ≤ m.createdTimestamp) &&
        decide (m.createdTimestamp < cfg.endTime))
      match writeMessages cfg tz fs inRange channelName with
      | .error _ => .fail
      | .ok fs2 =>
        let oldest := oldestMsg m0 rest
        if oldest.createdTimestamp < cfg.start then .ok fs2 total2 (calls + 1)
        else backfillFuel cfg tz hist channelName fuel (some oldest.id) fs2 total2 (calls + 1)

/-- The channel the traverser works on: its id, display name (absent or
empty for DM channels) and type. -/
structure Channel : Type where
  id : String
  name : Option String
  channelType : ChannelType

/-- `"name" in ch && ch.name ? ch.name : "dm"`: the empty string is
falsy. -/
def channelNameOf (ch : Channel) : String :=
  match ch.name with
  | some n => if n = "" then "dm" else n
  | none => "dm"

/-- `backfill(cfg, ch)` started on an empty cursor with the given fuel. -/
def backfill (cfg : Config) (tz : Int) (hist : List Message) (ch : Channel)
    (fuel : Nat) (fs : FS) : RunOutcome :=
  backfillFuel cfg tz hist (channelNameOf ch) fuel none fs 0 0

/-- C2: For every raw message and every configuration, the mapped
record's `content` is null exactly when the redaction flag is enabled
(and is the original text otherwise), and for any two configurations
differing only in the redaction flag the two mapped records agree on
every field other than `content`. -/
theorem redaction_invariant (msg : Message) (cfg : Config) (b1 b2 : Bool) :
    ((toRecord cfg msg).content = none ↔ cfg.redactContent = true)
    ∧ ((toRecord cfg msg).content = some msg.content ↔ cfg.redactContent = false)
    ∧ ((toRecord { cfg with redactContent := b1 } msg).message_id
        = (toRecord { cfg with redactContent := b2 } msg).message_id
      ∧ (toRecord { cfg with redactContent := b1 } msg).channel_id
        = (toRecord { cfg with redactContent := b2 } msg).channel_id
      ∧ (toRecord { cfg with redactContent := b1 } msg).guild_id
        = (toRecord { cfg with redactContent := b2 } msg).guild_id
      ∧ (toRecord { cfg with redactContent := b1 } msg).thread_id
        = (toRecord { cfg with redactContent := b2 } msg).thread_id
      ∧ (toRecord { cfg with redactContent := b1 } msg).created_at
        = (toRecord { cfg with redactContent := b2 } msg).created_at
      ∧ (toRecord { cfg with redactContent := b1 } msg).edited_at
        = (toRecord { cfg with redactContent := b2 } msg).edited_at
      ∧ (toRecord { cfg with redactContent := b1 } msg).author
        = (toRecord { cfg with redactContent := b2 } msg).author
      ∧ (toRecord { cfg with redactContent := b1 } msg).type
        = (toRecord { cfg with redactContent := b2 } msg).type
      ∧ (toRecord { cfg with redactContent := b1 } msg).tts
        = (toRecord { cfg with redactContent := b2 } msg).tts
      ∧ (toRecord { cfg with redactContent := b1 } msg).pinned
        = (toRecord { cfg with redactContent := b2 } msg).pinned
      ∧ (toRecord { cfg with redactContent := b1 } msg).flags
        = (toRecord { cfg with redactContent := b2 } msg).flags
      ∧ (toRecord { cfg with redactContent := b1 } msg).reference
        = (toRecord { cfg with redactContent := b2 } msg).reference
      ∧ (toRecord { cfg with redactContent := b1 } msg).mentions
        = (toRecord { cfg with redactContent := b2 } msg).mentions
      ∧ (toRecord { cfg with redactContent := b1 } msg).attachments
        = (toRecord { cfg with redactContent := b2 } msg).attachments
      ∧ (toRecord { cfg with redactContent := b1 } msg).embeds
        = (toRecord { cfg with redactContent := b2 } msg).embeds
      ∧ (toRecord { cfg with redactContent := b1 } msg).reactions
        = (toRecord { cfg with redactContent := b2 } msg).reactions) := by
  refine ⟨?_, ?_, rfl, rfl, rfl, rfl, rfl, rfl, rfl, rfl, rfl, rfl, rfl, rfl,
    rfl, rfl, rfl, rfl⟩
  · cases h : cfg.redactContent <;> simp [toRecord, h]
  · cases h : cfg.redactContent <;> simp [toRecord, h]

/-- C8: For every mapped record, `thread_id` is the message's channel id
exactly when the channel's type is one of the three thread variants
(public, private, announcement) and null otherwise. -/
theorem thread_id_rule (cfg : Config) (msg : Message) :
    ((toRecord cfg msg).thread_id = some msg.channelId ↔ isThread msg.channelType = true)
    ∧ ((toRecord cfg msg).thread_id = none ↔ isThread msg.channelType = false)
    ∧ (∀ t : ChannelType, isThread t = true ↔
        (t = ChannelType.PublicThread ∨ t = ChannelType.PrivateThread
          ∨ t = ChannelType.AnnouncementThread)) := by
  refine ⟨?_, ?_, ?_⟩
  · cases h : isThread msg.channelType <;> simp [toRecord, h]
  · cases h : isThread msg.channelType <;> simp [toRecord, h]
  · intro t
    simp [isThread]

/-- C10: the mapped record's `author` is the message's author verbatim:
null maps to null (even though the spec's data model shows the author
sub-record as always present), and a present author has its id,
username, discriminator, display name and bot flag copied unchanged. -/
theorem author_passthrough (cfg : Config) (msg : Message) :
    (toRecord cfg msg).author = msg.author := by
  cases h : msg.author with
  | none => simp [toRecord, h]
  | some a => simp [toRecord, h]

/-- C3: writing `M ≥ 1` new records to a partition whose file parses to
`N` existing records yields a file of exactly the `N + M` records in
existing-then-new order; writing an empty record list is a no-op on the
whole filesystem (absent files stay absent, existing files untouched). -/
theorem writeJson_merge (fs : FS) (p : String) (ex recs : List Json) :
    (fsRead fs p = some (.jsonData (.arr ex)) → recs ≠ [] →
      writeJson fs p recs = .ok (fsWrite fs p (.jsonData (.arr (ex ++ recs))))
        ∧ (ex ++ recs).length = ex.length + recs.length)
    ∧ writeJson fs p [] = .ok fs := by
  constructor
  · intro hread hne
    refine ⟨?_, List.length_append ex recs⟩
    simp [writeJson, hread, spreadJson, List.isEmpty_iff, hne]
  · rfl

/-- Witness for C3: a concrete merge of two records onto one. -/
theorem writeJson_merge_witness :
    (writeJson [("lake/g/2026-01-01/messages.json", .jsonData (.arr [Json.num 1]))]
        "lake/g/2026-01-01/messages.json" [Json.num 2, Json.num 3]
      = .ok (fsWrite [("lake/g/2026-01-01/messages.json", .jsonData (.arr [Json.num 1]))]
          "lake/g/2026-01-01/messages.json"
          (.jsonData (.arr ([Json.num 1] ++ [Json.num 2, Json.num 3])))))
    ∧ ([Json.num 1] ++ [Json.num 2, Json.num 3]).length = [Json.num 1].length + [Json.num 2, Json.num 3].length :=
  (writeJson_merge [("lake/g/2026-01-01/messages.json", .jsonData (.arr [Json.num 1]))]
    "lake/g/2026-01-01/messages.json" [Json.num 1] [Json.num 2, Json.num 3]).1
    rfl (List.cons_ne_nil _ _)

/-- Counterexample for C6: a prior file whose content is valid JSON but
not an array (here the object `{}`) is not treated as an empty list —
the write rejects (the spread of a non-iterable throws outside the
`try`) instead of succeeding with exactly the new records. -/
theorem writeJson_nonarray_cex :
    writeJson [("lake/x/2026-01-01/messages.json", FileData.jsonData (Json.obj []))]
        "lake/x/2026-01-01/messages.json" [Json.str "r"] = .error ()
    ∧ ¬ (writeJson [("lake/x/2026-01-01/messages.json", FileData.jsonData (Json.obj []))]
        "lake/x/2026-01-01/messages.json" [Json.str "r"]
      = .ok (fsWrite [("lake/x/2026-01-01/messages.json", FileData.jsonData (Json.obj []))]
          "lake/x/2026-01-01/messages.json" (FileData.jsonData (Json.arr [Json.str "r"])))) := by
  refine ⟨rfl, ?_⟩
  intro h
  have h1 : writeJson [("lake/x/2026-01-01/messages.json", FileData.jsonData (Json.obj []))]
      "lake/x/2026-01-01/messages.json" [Json.str "r"] = .error () := rfl
  rw [h1] at h
  exact Except.noConfusion h

/-- C6 as amended: only a file that is absent or whose content fails to
parse as JSON is treated as an empty prior list (the write then succeeds
and the file holds exactly the new records); content that parses to a
non-iterable JSON value (e.g. an object) makes the write fail instead. -/
theorem writeJson_absent_or_corrupt (fs : FS) (p : String) (recs : List Json)
    (hne : recs ≠ []) :
    ((fsRead fs p = none ∨ fsRead fs p = some .corrupt) →
      writeJson fs p recs = .ok (fsWrite fs p (.jsonData (.arr recs))))
    ∧ (∀ fields, fsRead fs p = some (.jsonData (.obj fields)) →
      writeJson fs p recs = .error ()) := by
  constructor
  · rintro (h | h) <;> simp [writeJson, h, spreadJson, List.isEmpty_iff, hne]
  · intro fields h
    simp [writeJson, h, spreadJson, List.isEmpty_iff, hne]

/-- Witness for the amended C6: an absent file is treated as empty, and
a corrupt file likewise; a `{}` file makes the write fail. -/
theorem writeJson_absent_or_corrupt_witness :
    (writeJson [] "lake/y/2026-01-01/messages.json" [Json.num 7]
      = .ok (fsWrite [] "lake/y/2026-01-01/messages.json" (.jsonData (.arr [Json.num 7]))))
    ∧ (writeJson [("q", FileData.corrupt)] "q" [Json.num 8]
      = .ok (fsWrite [("q", FileData.corrupt)] "q" (.jsonData (.arr [Json.num 8]))))
    ∧ writeJson [("z", FileData.jsonData (Json.obj []))] "z" [Json.num 9] = .error () :=
  ⟨(writeJson_absent_or_corrupt [] "lake/y/2026-01-01/messages.json" [Json.num 7]
      (List.cons_ne_nil _ _)).1 (Or.inl rfl),
   (writeJson_absent_or_corrupt [("q", FileData.corrupt)] "q" [Json.num 8]
      (List.cons_ne_nil _ _)).1 (Or.inr rfl),
   (writeJson_absent_or_corrupt [("z", FileData.jsonData (Json.obj []))] "z" [Json.num 9]
      (List.cons_ne_nil _ _)).2 [] rfl⟩

/-- The lowercase ASCII letters (the possible outputs of `lowerChar`
other than the input itself). -/
def lowerAlpha : List Char :=
  ['a', 'b', 'c', 'd', 'e', 'f', 'g', 'h', 'i', 'j', 'k', 'l', 'm',
   'n', 'o', 'p', 'q', 'r', 's', 't', 'u', 'v', 'w', 'x', 'y', 'z']

theorem lowerChar_cases (c : Char) : lowerChar c = c ∨ lowerChar c ∈ lowerAlpha := by
  unfold lowerChar
  split <;> first
    | exact Or.inl rfl
    | exact Or.inr (by decide)

theorem lowerAlpha_facts : ∀ c ∈ lowerAlpha,
    lowerChar c = c ∧ c ∉ forbiddenChars ∧ isJsWs c = false ∧ c ≠ '.' := by
  decide

theorem lowerChar_idem (c : Char) : lowerChar (lowerChar c) = lowerChar c := by
  rcases lowerChar_cases c with h | h
  · simp [h]
  · exact (lowerAlpha_facts _ h).1

theorem lowerChar_not_forbidden (c : Char) (h : c ∉ forbiddenChars) :
    lowerChar c ∉ forbiddenChars := by
  rcases lowerChar_cases c with h2 | h2
  · rw [h2]; exact h
  · exact (lowerAlpha_facts _ h2).2.1

theorem lowerChar_not_ws (c : Char) (h : isJsWs c = false) :
    isJsWs (lowerChar c) = false := by
  rcases lowerChar_cases c with h2 | h2
  · rw [h2]; exact h
  · exact (lowerAlpha_facts _ h2).2.2.1

theorem lowerChar_ne_dot (c : Char) (h : c ≠ '.') : lowerChar c ≠ '.' := by
  rcases lowerChar_cases c with h2 | h2
  · rw [h2]; exact h
  · exact (lowerAlpha_facts _ h2).2.2.2

theorem sanitizeChar_not_forbidden (c : Char) : sanitizeChar c ∉ forbiddenChars := by
  unfold sanitizeChar
  split
  · decide
  · assumption

/-- Every character surviving `collapseWs` is either the inserted dash or
a non-whitespace character of the input. -/
theorem collapseWs_mem (l : List Char) :
    ∀ x ∈ collapseWs l, x = '-' ∨ (x ∈ l ∧ isJsWs x = false) := by
  induction l using collapseWs.induct with
  | case1 => intro x hx; cases hx
  | case2 c h =>
    intro x hx
    simp only [collapseWs, if_pos h] at hx
    rw [List.mem_singleton] at hx
    subst hx
    exact Or.inl rfl
  | case3 c h =>
    intro x hx
    simp only [collapseWs, if_neg h] at hx
    rw [List.mem_singleton] at hx
    subst hx
    refine Or.inr ⟨List.mem_singleton_self x, ?_⟩
    simpa using h
  | case4 c1 c2 rest h1 h2 ih =>
    intro x hx
    simp only [collapseWs, if_pos h1, if_pos h2] at hx
    rcases ih x hx with h3 | ⟨h4, h5⟩
    · exact Or.inl h3
    · exact Or.inr ⟨List.mem_cons_of_mem _ h4, h5⟩
  | case5 c1 c2 rest h1 h2 ih =>
    intro x hx
    simp only [collapseWs, if_pos h1, if_neg h2] at hx
    rcases List.mem_cons.mp hx with rfl | hx
    · exact Or.inl rfl
    · rcases ih x hx with h3 | ⟨h4, h5⟩
      · exact Or.inl h3
      · exact Or.inr ⟨List.mem_cons_of_mem _ h4, h5⟩
  | case6 c1 c2 rest h1 ih =>
    intro x hx
    simp only [collapseWs, if_neg h1] at hx
    rcases List.mem_cons.mp hx with rfl | hx
    · refine Or.inr ⟨List.mem_cons_self _ _, ?_⟩
      simpa using h1
    · rcases ih x hx with h3 | ⟨h4, h5⟩
      · exact Or.inl h3
      · exact Or.inr ⟨List.mem_cons_of_mem _ h4, h5⟩

/-- `collapseWs` is the identity on whitespace-free strings. -/
theorem collapseWs_of_no_ws (l : List Char) (h : ∀ x ∈ l, isJsWs x = false) :
    collapseWs l = l := by
  induction l using collapseWs.induct with
  | case1 => rfl
  | case2 c hc =>
    exact absurd (h c (List.mem_singleton_self c)) (by simp [hc])
  | case3 c hc =>
    simp [collapseWs, hc]
  | case4 c1 c2 rest h1 h2 ih =>
    exact absurd (h c1 (List.mem_cons_self _ _)) (by simp [h1])
  | case5 c1 c2 rest h1 h2 ih =>
    exact absurd (h c1 (List.mem_cons_self _ _)) (by simp [h1])
  | case6 c1 c2 rest h1 ih =>
    simp only [collapseWs, if_neg h1]
    rw [ih (fun x hx => h x (List.mem_cons_of_mem _ hx))]

theorem map_id_of_fixed {α : Type} (f : α → α) (l : List α)
    (h : ∀ x ∈ l, f x = x) : l.map f = l := by
  induction l with
  | nil => rfl
  | cons a rest ih =>
    simp only [List.map_cons, h a (List.mem_cons_self _ _),
      ih (fun x hx => h x (List.mem_cons_of_mem _ hx))]

theorem dropWhile_head_not {α : Type} (p : α → Bool) (l : List α) (a : α)
    (rest : List α) (h : l.dropWhile p = a :: rest) : p a = false := by
  induction l with
  | nil => cases h
  | cons b l2 ih =>
    by_cases hb : p b
    · exact ih (by simpa [List.dropWhile, hb] using h)
    · simp only [List.dropWhile, Bool.not_eq_true] at hb
      rw [List.dropWhile, hb] at h
      cases h
      simpa using hb

theorem mem_of_mem_dropWhile {α : Type} (p : α → Bool) (l : List α) (x : α)
    (h : x ∈ l.dropWhile p) : x ∈ l := by
  induction l with
  | nil => cases h
  | cons b l2 ih =>
    by_cases hb : p b
    · exact List.mem_cons_of_mem _ (ih (by simpa [List.dropWhile, hb] using h))
    · simp only [Bool.not_eq_true] at hb
      rw [List.dropWhile, hb] at h
      exact h

/-- Every character of a sanitized name is non-forbidden, non-whitespace
and lowercase-fixed. -/
theorem sanitizeChars_chars (l : List Char) :
    ∀ x ∈ sanitizeChars l, x ∉ forbiddenChars ∧ isJsWs x = false ∧ lowerChar x = x := by
  intro x hx
  simp only [sanitizeChars, List.mem_map] at hx
  obtain ⟨y, hy, rfl⟩ := hx
  have hy2 : y ∈ collapseWs (l.map sanitizeChar) := mem_of_mem_dropWhile _ _ y hy
  rcases collapseWs_mem _ y hy2 with rfl | ⟨hmem, hws⟩
  · exact ⟨by decide, by decide, by decide⟩
  · obtain ⟨z, _, rfl⟩ := List.mem_map.mp hmem
    exact ⟨lowerChar_not_forbidden _ (sanitizeChar_not_forbidden z),
      lowerChar_not_ws _ hws, lowerChar_idem _⟩

/-- A non-empty sanitized name never starts with a dot. -/
theorem sanitizeChars_head_ne_dot (l : List Char) (a : Char) (rest : List Char)
    (h : sanitizeChars l = a :: rest) : a ≠ '.' := by
  unfold sanitizeChars at h
  cases hl3 : (collapseWs (l.map sanitizeChar)).dropWhile (fun c => c = '.') with
  | nil => rw [hl3] at h; cases h
  | cons y ys =>
    rw [hl3] at h
    have hy : decide (y = '.') = false := dropWhile_head_not _ _ y ys hl3
    have : a = lowerChar y := by
      simp only [List.map_cons] at h
      exact (List.cons.injEq _ _ _ _ ▸ h).1.symm
    rw [this]
    exact lowerChar_ne_dot y (of_decide_eq_false hy)

/-- C9 at the character-list level: sanitization is idempotent. -/
theorem sanitizeChars_idem (l : List Char) :
    sanitizeChars (sanitizeChars l) = sanitizeChars l := by
  have hfix := sanitizeChars_chars l
  have h1 : (sanitizeChars l).map sanitizeChar = sanitizeChars l :=
    map_id_of_fixed _ _ (fun x hx => by
      unfold sanitizeChar
      rw [if_neg (hfix x hx).1])
  have h2 : collapseWs (sanitizeChars l) = sanitizeChars l :=
    collapseWs_of_no_ws _ (fun x hx => (hfix x hx).2.1)
  have h3 : (sanitizeChars l).dropWhile (fun c => decide (c = '.')) = sanitizeChars l := by
    cases ht : sanitizeChars l with
    | nil => simp
    | cons a rest =>
      have ha : a ≠ '.' := sanitizeChars_head_ne_dot l a rest ht
      simp [List.dropWhile, ha]
  show ((collapseWs ((sanitizeChars l).map sanitizeChar)).dropWhile
      (fun c => decide (c = '.'))).map lowerChar = sanitizeChars l
  rw [h1, h2, h3]
  exact map_id_of_fixed _ _ (fun x hx => (hfix x hx).2.2)

/-- C9: the channel-name sanitizer is idempotent: sanitizing an already
sanitized name is a no-op (it is a total pure function by
construction). -/
theorem sanitizeChannelName_idem (s : String) :
    sanitizeChannelName (sanitizeChannelName s) = sanitizeChannelName s := by
  show String.mk (sanitizeChars (String.mk (sanitizeChars s.data)).data) = _
  rw [show (String.mk (sanitizeChars s.data)).data = sanitizeChars s.data from rfl,
    sanitizeChars_idem]
  rfl

theorem dedupFirst_nodup (l : List String) : (dedupFirst l).Nodup := by
  induction l with
  | nil => exact List.nodup_nil
  | cons k rest ih =>
    refine List.Nodup.cons ?_ (List.Nodup.filter _ ih)
    intro hk
    have := (List.mem_filter.mp hk).2
    simp at this

theorem mem_dedupFirst (l : List String) (a : String) :
    a ∈ dedupFirst l ↔ a ∈ l := by
  induction l with
  | nil => exact Iff.rfl
  | cons k rest ih =>
    constructor
    · intro h
      rcases List.mem_cons.mp h with rfl | h2
      · exact List.mem_cons_self _ _
      · exact List.mem_cons_of_mem _ (ih.mp (List.mem_filter.mp h2).1)
    · intro h
      by_cases hak : a = k
      · subst hak; exact List.mem_cons_self _ _
      · rcases List.mem_cons.mp h with rfl | h2
        · exact absurd rfl hak
        · exact List.mem_cons_of_mem _
            (List.mem_filter.mpr ⟨ih.mpr h2, by simpa using hak⟩)

/-- C5: for a page handed to the write step, the date-grouped batches fed
to the Partition Writer have pairwise-distinct dates; the dates are
exactly the local calendar dates present among the page's messages; each
group holds exactly the (sorted) page's messages of its date (so every
message lands in the one partition matching its creation date); sorting
does not add or drop messages; and every group is sorted ascending by
creation time. -/
theorem page_grouping (tz : Int) (msgs : List Message) :
    ((pageGroups tz msgs).map Prod.fst).Nodup
    ∧ (∀ k, k ∈ (pageGroups tz msgs).map Prod.fst ↔
        ∃ m ∈ msgs, localDate tz m.createdTimestamp = k)
    ∧ (∀ g ∈ pageGroups tz msgs, ∀ m, m ∈ g.2 ↔
        (m ∈ sortMessages msgs ∧ localDate tz m.createdTimestamp = g.1))
    ∧ (∀ m, m ∈ sortMessages msgs ↔ m ∈ msgs)
    ∧ (∀ g ∈ pageGroups tz msgs, g.2.Sorted createdLe) := by
  have hmap : (pageGroups tz msgs).map Prod.fst
      = dedupFirst ((sortMessages msgs).map (fun m => localDate tz m.createdTimestamp)) := by
    simp only [pageGroups, groupByKey, List.map_map]
    exact List.map_id _
  have hmem : ∀ m, m ∈ sortMessages msgs ↔ m ∈ msgs := fun m =>
    List.mem_insertionSort createdLe
  refine ⟨?_, ?_, ?_, hmem, ?_⟩
  · rw [hmap]; exact dedupFirst_nodup _
  · intro k
    rw [hmap, mem_dedupFirst, List.mem_map]
    constructor
    · rintro ⟨m, hm, rfl⟩
      exact ⟨m, (hmem m).mp hm, rfl⟩
    · rintro ⟨m, hm, rfl⟩
      exact ⟨m, (hmem m).mpr hm, rfl⟩
  · intro g hg m
    simp only [pageGroups, groupByKey, List.mem_map] at hg
    obtain ⟨k, _, rfl⟩ := hg
    simp [List.mem_filter]
  · intro g hg
    simp only [pageGroups, groupByKey, List.mem_map] at hg
    obtain ⟨k, _, rfl⟩ := hg
    exact List.Pairwise.filter _ (List.sorted_insertionSort createdLe msgs)

/-- A minimal concrete message for witnesses and scenarios. -/
def simpleMsg (j : Nat) (ts : Int) : Message :=
  { id := j, channelId := "c1", guildId := some "g1", channelType := .GuildText,
    createdTimestamp := ts, editedTimestamp := none, author := none,
    content := "m", type := 0, tts := false, pinned := false, flags := some 0,
    reference := none,
    mentions := { users := [], roles := [], channels := [], everyone := false },
    attachments := [], embeds := [], reactions := [] }

/-- Epoch milliseconds of 2026-01-01T00:00:00Z. -/
def day1Ms : Int := 1767225600000

/-- Epoch milliseconds of 2026-01-02T00:00:00Z. -/
def day2Ms : Int := day1Ms + 86400000

/-- Witness for C5: a two-day page groups into both dates, with
pairwise-distinct dates. -/
theorem page_grouping_witness :
    "2026-01-02" ∈ (pageGroups 0 [simpleMsg 2 day2Ms, simpleMsg 1 day1Ms]).map Prod.fst
    ∧ ((pageGroups 0 [simpleMsg 2 day2Ms, simpleMsg 1 day1Ms]).map Prod.fst).Nodup :=
  ⟨((page_grouping 0 [simpleMsg 2 day2Ms, simpleMsg 1 day1Ms]).2.1 "2026-01-02").mpr
      ⟨simpleMsg 2 day2Ms, List.mem_cons_self _ _, by decide⟩,
   (page_grouping 0 [simpleMsg 2 day2Ms, simpleMsg 1 day1Ms]).1⟩

/-- The set of messages still reachable from a cursor position (what a
fetch with that cursor draws its page from). -/
def cursorBase (hist : List Message) : Option Nat → List Message
  | none => hist
  | some b => hist.filter (fun m => decide (m.id < b))

theorem fetchPage_eq_take (hist : List Message) (before : Option Nat) :
    fetchPage hist before = (cursorBase hist before).take 100 := by
  cases before <;> rfl

theorem oldestMsg_mem : ∀ (rest : List Message) (m0 : Message),
    oldestMsg m0 rest ∈ m0 :: rest := by
  intro rest
  induction rest with
  | nil => intro m0; exact List.mem_singleton_self m0
  | cons b l ih =>
    intro m0
    have heq : oldestMsg m0 (b :: l)
        = oldestMsg (if m0.createdTimestamp < b.createdTimestamp then m0 else b) l := rfl
    rw [heq]
    rcases List.mem_cons.mp (ih (if m0.createdTimestamp < b.createdTimestamp then m0 else b))
      with h2 | h2
    · rw [h2]
      split
      · exact List.mem_cons_self _ _
      · exact List.mem_cons_of_mem _ (List.mem_cons_self _ _)
    · exact List.mem_cons_of_mem _ (List.mem_cons_of_mem _ h2)

/-- Advancing the cursor to the page's oldest message strictly shrinks
the reachable message set (the loop's termination measure). -/
theorem cursorBase_decrease (hist : List Message) (before : Option Nat)
    (m0 : Message) (rest : List Message)
    (hpage : fetchPage hist before = m0 :: rest) :
    (cursorBase hist (some (oldestMsg m0 rest).id)).length
      < (cursorBase hist before).length := by
  have hmem_page : oldestMsg m0 rest ∈ fetchPage hist before := by
    rw [hpage]; exact oldestMsg_mem rest m0
  have hmem : oldestMsg m0 rest ∈ cursorBase hist before :=
    List.take_subset _ _ (fetchPage_eq_take hist before ▸ hmem_page)
  cases before with
  | none =>
    show (hist.filter (fun m => decide (m.id < (oldestMsg m0 rest).id))).length
        < hist.length
    exact List.length_filter_lt_length_iff_exists.mpr ⟨oldestMsg m0 rest, hmem, by simp⟩
  | some b =>
    have hob : (oldestMsg m0 rest).id < b :=
      of_decide_eq_true (List.mem_filter.mp hmem).2
    show (hist.filter (fun m => decide (m.id < (oldestMsg m0 rest).id))).length
        < (hist.filter (fun m => decide (m.id < b))).length
    have heq : hist.filter (fun m => decide (m.id < (oldestMsg m0 rest).id))
        = (hist.filter (fun m => decide (m.id < b))).filter
            (fun m => decide (m.id < (oldestMsg m0 rest).id)) := by
      rw [List.filter_filter]
      refine (List.filter_congr ?_).symm
      intro m _
      by_cases h : m.id < (oldestMsg m0 rest).id
      · simp [h, Nat.lt_trans h hob]
      · simp [h]
    rw [heq]
    exact List.length_filter_lt_length_iff_exists.mpr ⟨oldestMsg m0 rest, hmem, by simp⟩

theorem backfillFuel_no_fuelOut (cfg : Config) (tz : Int) (hist : List Message)
    (name : String) :
    ∀ fuel before fs total calls, (cursorBase hist before).length < fuel →
      backfillFuel cfg tz hist name fuel before fs total calls ≠ .fuelOut := by
  intro fuel
  induction fuel with
  | zero =>
    intro before fs total calls h
    exact absurd h (Nat.not_lt_zero _)
  | succ n ih =>
    intro before fs total calls h
    cases hpage : fetchPage hist before with
    | nil =>
      simp [backfillFuel, hpage]
    | cons m0 rest =>
      cases hw : writeMessages cfg tz fs
          ((m0 :: rest).filter (fun m =>
            decide (cfg.start ≤ m.createdTimestamp) &&
            decide (m.createdTimestamp < cfg.endTime))) name with
      | error e =>
        simp [backfillFuel, hpage, hw]
      | ok fs2 =>
        by_cases hold : (oldestMsg m0 rest).createdTimestamp < cfg.start
        · simp [backfillFuel, hpage, hw, hold]
        · have hdec : (cursorBase hist (some (oldestMsg m0 rest).id)).length < n := by
            have hlt := cursorBase_decrease hist before m0 rest hpage
            omega
          have hne := ih (some (oldestMsg m0 rest).id) fs2
            (total + (m0 :: rest).length) (calls + 1) hdec
          simpa [backfillFuel, hpage, hw, hold] using hne

/-- C4: the backfill loop always terminates on a (finite) message
history: one fuel unit per fetch call, `|hist| + 1` units never run out
— the loop halts on the first empty page or the first page whose oldest
message precedes `start`, and otherwise strictly shrinks the set of
messages older than the cursor. -/
theorem backfill_terminates (cfg : Config) (tz : Int) (hist : List Message)
    (ch : Channel) (fs : FS) :
    backfill cfg tz hist ch (hist.length + 1) fs ≠ .fuelOut := by
  unfold backfill
  apply backfillFuel_no_fuelOut
  show (cursorBase hist none).length < hist.length + 1
  exact Nat.lt_succ_self _

/-- Invariant over the filesystem: every present file is a JSON array
all of whose records satisfy `P`. -/
def GoodFS (P : Json → Prop) (fs : FS) : Prop :=
  ∀ p d, fsRead fs p = some d →
    ∃ l, d = FileData.jsonData (Json.arr l) ∧ ∀ r ∈ l, P r

theorem fsRead_fsWrite_self (fs : FS) (p : String) (d : FileData) :
    fsRead (fsWrite fs p d) p = some d := by
  induction fs with
  | nil => simp [fsWrite, fsRead]
  | cons e rest ih =>
    obtain ⟨q0, d0⟩ := e
    by_cases h : q0 = p
    · simp [fsWrite, fsRead, h]
    · simp [fsWrite, fsRead, h, ih]

theorem fsRead_fsWrite_other (fs : FS) (p q : String) (d : FileData)
    (hne : q ≠ p) : fsRead (fsWrite fs p d) q = fsRead fs q := by
  have hne2 : ¬ p = q := fun h => hne h.symm
  induction fs with
  | nil => simp [fsWrite, fsRead, hne2]
  | cons e rest ih =>
    obtain ⟨q0, d0⟩ := e
    by_cases h : q0 = p
    · subst h
      simp [fsWrite, fsRead, hne2]
    · by_cases h2 : q0 = q
      · simp [fsWrite, fsRead, h, h2, hne]
      · simp [fsWrite, fsRead, h, h2, ih]

/-- A successful `writeJson` of good records preserves the filesystem
invariant. -/
theorem writeJson_good (P : Json → Prop) (fs : FS) (p : String)
    (recs : List Json) (fs2 : FS) (hgood : GoodFS P fs)
    (hrecs : ∀ r ∈ recs, P r) (hok : writeJson fs p recs = .ok fs2) :
    GoodFS P fs2 := by
  by_cases hempty : recs.isEmpty
  · rw [writeJson, if_pos hempty] at hok
    cases hok
    exact hgood
  · have hgen : ∀ xs : List Json, (∀ r ∈ xs, P r) →
        fs2 = fsWrite fs p (FileData.jsonData (Json.arr (xs ++ recs))) → GoodFS P fs2 := by
      intro xs hxs heq
      subst heq
      intro q d hq
      by_cases hqp : q = p
      · subst hqp
        rw [fsRead_fsWrite_self] at hq
        cases hq
        refine ⟨xs ++ recs, rfl, ?_⟩
        intro r hr
        rcases List.mem_append.mp hr with h | h
        · exact hxs r h
        · exact hrecs r h
      · rw [fsRead_fsWrite_other fs p q _ hqp] at hq
        exact hgood q d hq
    cases hr : fsRead fs p with
    | none =>
      rw [writeJson, if_neg hempty] at hok
      rw [hr] at hok
      simp only [spreadJson] at hok
      cases hok
      exact hgen [] (by intro r h; cases h) rfl
    | some d =>
      obtain ⟨l, rfl, hl⟩ := hgood p d hr
      rw [writeJson, if_neg hempty] at hok
      rw [hr] at hok
      simp only [spreadJson] at hok
      cases hok
      exact hgen l hl rfl

/-- Folding fallible steps that preserve an invariant preserves it. -/
theorem foldlM_except_inv {β : Type} (Q : FS → Prop) :
    ∀ (gs : List β) (step : FS → β → Except Unit FS) (fs fs2 : FS),
      (∀ s b s2, b ∈ gs → Q s → step s b = .ok s2 → Q s2) →
      Q fs → List.foldlM step fs gs = .ok fs2 → Q fs2 := by
  intro gs
  induction gs with
  | nil =>
    intro step fs fs2 _ hq hfold
    rw [List.foldlM_nil] at hfold
    cases hfold
    exact hq
  | cons g rest ih =>
    intro step fs fs2 hstep hq hfold
    rw [List.foldlM_cons] at hfold
    cases hs : step fs g with
    | error e =>
      rw [hs] at hfold
      exact Except.noConfusion hfold
    | ok s1 =>
      rw [hs] at hfold
      exact ih step s1 fs2
        (fun s b s2 hb => hstep s b s2 (List.mem_cons_of_mem _ hb))
        (hstep fs g s1 (List.mem_cons_self _ _) hq hs) hfold

/-- A successful `writeMessages` whose page consists of good messages
preserves the filesystem invariant. -/
theorem writeMessages_good (P : Json → Prop) (cfg : Config) (tz : Int)
    (fs : FS) (msgs : List Message) (name : String) (fs2 : FS)
    (hgood : GoodFS P fs)
    (hmsgs : ∀ m ∈ msgs, P (recordToJson (toRecord cfg m)))
    (hok : writeMessages cfg tz fs msgs name = .ok fs2) :
    GoodFS P fs2 := by
  by_cases hempty : msgs.isEmpty
  · rw [writeMessages, if_pos hempty] at hok
    cases hok
    exact hgood
  · rw [writeMessages, if_neg hempty] at hok
    refine foldlM_except_inv (GoodFS P) (pageGroups tz msgs) _ fs fs2 ?_ hgood hok
    intro s g s2 hg hs hstep
    by_cases hgempty : g.2.isEmpty
    · rw [if_pos hgempty] at hstep
      cases hstep
      exact hs
    · rw [if_neg hgempty] at hstep
      refine writeJson_good P s _ _ s2 hs ?_ hstep
      intro r hr
      obtain ⟨m, hm, rfl⟩ := List.mem_map.mp hr
      have hm2 : m ∈ sortMessages msgs := by
        simp only [pageGroups, groupByKey, List.mem_map] at hg
        obtain ⟨k, _, rfl⟩ := hg
        exact (List.mem_filter.mp hm).1
      exact hmsgs m ((List.mem_insertionSort createdLe).mp hm2)

theorem fetchPage_subset_hist (hist : List Message) (before : Option Nat) :
    ∀ m ∈ fetchPage hist before, m ∈ hist := by
  intro m hm
  have h2 := List.take_subset _ _ ((fetchPage_eq_take hist before) ▸ hm)
  cases before with
  | none => exact h2
  | some b => exact (List.mem_filter.mp h2).1

/-- The per-run window predicate: a record written by this run comes
from an in-window message of the history. -/
def InWindowRecord (cfg : Config) (hist : List Message) (r : Json) : Prop :=
  ∃ m ∈ hist, (cfg.start ≤ m.createdTimestamp ∧ m.createdTimestamp < cfg.endTime)
    ∧ r = recordToJson (toRecord cfg m)

theorem backfillFuel_good (cfg : Config) (tz : Int) (hist : List Message)
    (name : String) :
    ∀ fuel before fs total calls fs2 total2 calls2,
      GoodFS (InWindowRecord cfg hist) fs →
      backfillFuel cfg tz hist name fuel before fs total calls = .ok fs2 total2 calls2 →
      GoodFS (InWindowRecord cfg hist) fs2 := by
  intro fuel
  induction fuel with
  | zero =>
    intro before fs total calls fs2 total2 calls2 _ heq
    exact RunOutcome.noConfusion heq
  | succ n ih =>
    intro before fs total calls fs2 total2 calls2 hgood heq
    cases hpage : fetchPage hist before with
    | nil =>
      simp only [backfillFuel, hpage] at heq
      cases heq
      exact hgood
    | cons m0 rest =>
      cases hw : writeMessages cfg tz fs
          ((m0 :: rest).filter (fun m =>
            decide (cfg.start ≤ m.createdTimestamp) &&
            decide (m.createdTimestamp < cfg.endTime))) name with
      | error e =>
        simp only [backfillFuel, hpage, hw] at heq
        exact RunOutcome.noConfusion heq
      | ok fsw =>
        have hfsw : GoodFS (InWindowRecord cfg hist) fsw := by
          refine writeMessages_good _ cfg tz fs _ name fsw hgood ?_ hw
          intro m hm
          have h1 := List.mem_filter.mp hm
          have h2 := h1.2
          rw [Bool.and_eq_true, decide_eq_true_eq, decide_eq_true_eq] at h2
          exact ⟨m, fetchPage_subset_hist hist before m (hpage ▸ h1.1), h2, rfl⟩
        by_cases hold : (oldestMsg m0 rest).createdTimestamp < cfg.start
        · simp only [backfillFuel, hpage, hw, if_pos hold] at heq
          cases heq
          exact hfsw
        · simp only [backfillFuel, hpage, hw, if_neg hold] at heq
          exact ih (some (oldestMsg m0 rest).id) fsw
            (total + (m0 :: rest).length) (calls + 1) fs2 total2 calls2 hfsw heq

/-- C1: every record in any partition file produced by a traversal run
started on an empty output directory is the mapped record of a history
message whose creation instant `t` satisfies `start ≤ t < end`; no
message outside the half-open window is ever written. -/
theorem window_invariant (cfg : Config) (tz : Int) (hist : List Message)
    (name : String) (fuel : Nat) (fs2 : FS) (total2 calls2 : Nat)
    (hrun : backfillFuel cfg tz hist name fuel none [] 0 0 = .ok fs2 total2 calls2) :
    ∀ p d, fsRead fs2 p = some d →
      ∃ l, d = FileData.jsonData (Json.arr l) ∧ ∀ r ∈ l,
        ∃ m ∈ hist,
          (cfg.start ≤ m.createdTimestamp ∧ m.createdTimestamp < cfg.endTime)
          ∧ r = recordToJson (toRecord cfg m) := by
  have hempty : GoodFS (InWindowRecord cfg hist) [] := by
    intro p d h
    exact Option.noConfusion h
  exact backfillFuel_good cfg tz hist name fuel none [] 0 0 fs2 total2 calls2
    hempty hrun

/-- The partition path of 2026-01-01 for channel name "general". -/
def gPath1 : String := "lake/general/2026-01-01/messages.json"

/-- The partition path of 2026-01-02 for channel name "general". -/
def gPath2 : String := "lake/general/2026-01-02/messages.json"

/-- A two-day export window config over 2026-01-01 and 2026-01-02. -/
def cfg7 : Config :=
  { token := "t", channel := "c1", outDir := "lake", start := day1Ms,
    endTime := day1Ms + 2 * 86400000, redactContent := false }

/-- The exported channel of the concrete scenarios. -/
def ch7 : Channel := { id := "c1", name := some "general", channelType := .GuildText }

/-- Witness for C1: a one-message run writes exactly that in-window
message's record. -/
theorem window_invariant_witness :
    ∃ l, FileData.jsonData (Json.arr [recordToJson (toRecord cfg7 (simpleMsg 1 day1Ms))])
        = FileData.jsonData (Json.arr l)
      ∧ ∀ r ∈ l, ∃ m ∈ [simpleMsg 1 day1Ms],
          (cfg7.start ≤ m.createdTimestamp ∧ m.createdTimestamp < cfg7.endTime)
          ∧ r = recordToJson (toRecord cfg7 m) :=
  window_invariant cfg7 0 [simpleMsg 1 day1Ms] "general" 2
    [(gPath1, FileData.jsonData (Json.arr [recordToJson (toRecord cfg7 (simpleMsg 1 day1Ms))]))]
    1 2 (by rfl) gPath1
    (FileData.jsonData (Json.arr [recordToJson (toRecord cfg7 (simpleMsg 1 day1Ms))]))
    (by rfl)

/-- The number of fetch calls a completed run made. -/
def runFetchCalls : RunOutcome → Option Nat
  | .ok _ _ calls => some calls
  | _ => none

/-- 150 messages, newest first: 75 on 2026-01-01 (ids 0–74) and 75 on
2026-01-02 (ids 75–149), one second apart. -/
def hist75 : List Message :=
  (List.range 150).reverse.map (fun j =>
    if j < 75 then simpleMsg j (day1Ms + j * 1000)
    else simpleMsg j (day2Ms + (j - 75) * 1000))

/-- The newest 25 messages of day one (the part of the first page that
falls on 2026-01-01). -/
def day1Seg1 : List Message :=
  (List.range 25).map (fun i => simpleMsg (50 + i) (day1Ms + (50 + i) * 1000))

/-- The oldest 50 messages of day one (the whole second page). -/
def day1Seg2 : List Message :=
  (List.range 50).map (fun i => simpleMsg i (day1Ms + i * 1000))

/-- All 75 messages of day two, ascending. -/
def day2Full75 : List Message :=
  (List.range 75).map (fun i => simpleMsg (75 + i) (day2Ms + i * 1000))

set_option maxRecDepth 400000 in
/-- Counterexample for C7: on a 150-message history spanning two days
(75 + 75, window covering both, page size 100) the traversal makes 3
fetch calls, not 2 (a final empty fetch is needed to detect exhaustion);
moreover the day-one partition ends up holding the day's newest 25
messages before its oldest 50 (each page's contribution is sorted, but
the whole file is not ascending), since the day straddles the page
boundary. -/
theorem two_day_scenario_cex :
    backfill cfg7 0 hist75 ch7 (hist75.length + 1) []
      = RunOutcome.ok
        [(gPath1, FileData.jsonData (Json.arr
           ((day1Seg1 ++ day1Seg2).map (fun m => recordToJson (toRecord cfg7 m))))),
         (gPath2, FileData.jsonData (Json.arr
           (day2Full75.map (fun m => recordToJson (toRecord cfg7 m)))))]
        150 3
    ∧ runFetchCalls (backfill cfg7 0 hist75 ch7 (hist75.length + 1) []) ≠ some 2
    ∧ ¬ List.Pairwise createdLe (day1Seg1 ++ day1Seg2) := by
  have hrun : backfill cfg7 0 hist75 ch7 (hist75.length + 1) []
      = RunOutcome.ok
        [(gPath1, FileData.jsonData (Json.arr
           ((day1Seg1 ++ day1Seg2).map (fun m => recordToJson (toRecord cfg7 m))))),
         (gPath2, FileData.jsonData (Json.arr
           (day2Full75.map (fun m => recordToJson (toRecord cfg7 m)))))]
        150 3 := by rfl
  refine ⟨hrun, ?_, by decide⟩
  intro h
  rw [hrun] at h
  simp [runFetchCalls] at h

/-- All 50 messages of day one, ascending (the aligned scenario's whole
second page). -/
def day1Full : List Message :=
  (List.range 50).map (fun i => simpleMsg i (day1Ms + i * 1000))

/-- All 100 messages of day two, ascending (the aligned scenario's whole
first page). -/
def day2Full : List Message :=
  (List.range 100).map (fun i => simpleMsg (50 + i) (day2Ms + i * 1000))

/-- 150 messages, newest first: 50 on 2026-01-01 (ids 0–49) and 100 on
2026-01-02 (ids 50–149) — the day boundary coincides with the page
boundary. -/
def histAligned : List Message :=
  (List.range 150).reverse.map (fun j =>
    if j < 50 then simpleMsg j (day1Ms + j * 1000)
    else simpleMsg j (day2Ms + (j - 50) * 1000))

set_option maxRecDepth 400000 in
/-- C7 as amended: on a 150-message two-day history whose newer day
holds exactly one full page (100 messages), a window covering both days
yields 3 fetch calls (the third returns the empty page that ends the
loop), exactly 2 partition files, each holding exactly that day's
messages sorted ascending by creation time, with no message in more than
one file. -/
theorem two_day_scenario_amended :
    backfill cfg7 0 histAligned ch7 (histAligned.length + 1) []
      = RunOutcome.ok
        [(gPath2, FileData.jsonData (Json.arr
           (day2Full.map (fun m => recordToJson (toRecord cfg7 m))))),
         (gPath1, FileData.jsonData (Json.arr
           (day1Full.map (fun m => recordToJson (toRecord cfg7 m)))))]
        150 3
    ∧ List.Pairwise createdLe day1Full
    ∧ List.Pairwise createdLe day2Full
    ∧ day1Full.all (fun m => localDate 0 m.createdTimestamp == "2026-01-01") = true
    ∧ day2Full.all (fun m => localDate 0 m.createdTimestamp == "2026-01-02") = true
    ∧ day1Full.all (fun m => day2Full.all (fun m2 => m.id != m2.id)) = true := by
  refine ⟨by rfl, by decide, by decide, by decide, by decide, by decide⟩
